import Mathlib

/-!
Verification development for the HUB-Assigner data pipeline
(src/unnamed/part_001 `runInitialProcessing`, `assignAndGenerateExcel`,
and the older variant src/services/excelProcessor.ts).

Spreadsheet cells are modelled by `Cell`; a JS array-of-cells row is a
`List Cell`, with out-of-range access yielding `Cell.undef` (JS
`undefined`).  Numbers are modelled by `Int`: every numeric value that
the pipeline manipulates is an integer key, and `Number(...)` coercion
is modelled on its integer fragment (`jsStringToNumber`).  File decoding
and XLSX serialization belong to the external reader/writer collaborator
and are outside the model: the pipeline functions receive already
decoded tables and return the data that would be serialized.
-/

/-- A spreadsheet cell value: a string, a number (integer fragment of JS
numbers), or JS `undefined` (which arises from out-of-range array access
such as `row[0]` on an empty row). -/
inductive Cell where
  | str (s : String)
  | num (n : Int)
  | undef
deriving DecidableEq, Repr

/-- A row is an ordered sequence of cells, as decoded by
`XLSX.utils.sheet_to_json(ws, \x7b header: 1, defval: "" \x7d)`. -/
abbrev Row := List Cell

/-- JS `row[i]`: the i-th cell, or `undefined` past the end. -/
def getCell (r : Row) (i : Nat) : Cell := r.getD i Cell.undef

/-- JS `String(x)` on a cell value. -/
def cellToString : Cell → String
  | Cell.str s => s
  | Cell.num n => toString n
  | Cell.undef => "undefined"

/-- JS truthiness of a cell value: `""`, `0` and `undefined` are falsy. -/
def truthy : Cell → Bool
  | Cell.str s => s != ""
  | Cell.num n => n != 0
  | Cell.undef => false

/-- Value of a list of decimal digit characters. -/
def digitsToNat (cs : List Char) : Nat :=
  cs.foldl (fun a c => 10 * a + (c.toNat - '0'.toNat)) 0

/-- True when the list is a nonempty run of decimal digits. -/
def isDigits (cs : List Char) : Bool :=
  !cs.isEmpty && cs.all Char.isDigit

/-- ASCII whitespace, for the leading/trailing trim JS `Number`
performs. -/
def isJsWs (c : Char) : Bool :=
  c == ' ' || c == '\t' || c == '\n' || c == '\r'

/-- Strip leading and trailing whitespace from a character list. -/
def trimChars (cs : List Char) : List Char :=
  ((cs.dropWhile isJsWs).reverse.dropWhile isJsWs).reverse

/-- JS `Number(s)` for a string, on its integer fragment: surrounding
whitespace is ignored, the empty (or all-whitespace) string coerces to
`0`, an optional sign followed by decimal digits coerces to that
integer, and anything else is `NaN` (`none`).  Fractional, exponent and
hexadecimal literals are outside the model; every key the pipeline
coerces is an integer. -/
def jsStringToNumber (s : String) : Option Int :=
  match trimChars s.data with
  | [] => some 0
  | '-' :: rest => if isDigits rest then some (-(digitsToNat rest : Int)) else none
  | '+' :: rest => if isDigits rest then some (digitsToNat rest) else none
  | cs => if isDigits cs then some (digitsToNat cs) else none

/-- JS `Number(x)` on a cell: numbers pass through, strings are parsed,
`undefined` is `NaN` (`none`). -/
def jsNumber : Cell → Option Int
  | Cell.num n => some n
  | Cell.str s => jsStringToNumber s
  | Cell.undef => none

/-- List-level substring test used to model JS `String.includes`. -/
def listIncludes [DecidableEq α] : List α → List α → Bool
  | [], sub => sub.isEmpty
  | a :: t, sub => sub.isPrefixOf (a :: t) || listIncludes t sub

/-- JS `s.includes(sub)`. -/
def strIncludes (s sub : String) : Bool :=
  listIncludes s.toList sub.toList

/-- The ZRAX pre-filter mode of part_001: `NONE`, `ZOP`
(prioritize-flagged) or `OZ` (only-flagged). -/
inductive ZraxFilter where
  | NONE | ZOP | OZ
deriving DecidableEq, Repr

/-- Step 2.1 of `runInitialProcessing` (part_001 lines 47-53): under the
`OZ` mode keep the header and only the data rows whose cell at index 25
(column Z) is exactly the string "ZRAX". -/
def applyOZ (zf : ZraxFilter) (rawData : List Row) : List Row :=
  if zf = ZraxFilter.OZ then
    rawData.headD [] :: (rawData.drop 1).filter (fun r => getCell r 25 == Cell.str "ZRAX")
  else rawData

/-- Step 2.2 loop body (part_001 lines 61-69): walk the data rows in
order with the set of already seen keys; a row whose first cell does not
coerce to a number is dropped, a row whose key was already seen is
dropped, and a kept row has its first cell replaced by the coerced
number. -/
def dedupData : List Row → List Int → List Row
  | [], _ => []
  | r :: rs, seen =>
    match jsNumber (getCell r 0) with
    | some v =>
      if v ∈ seen then dedupData rs seen
      else (Cell.num v :: r.drop 1) :: dedupData rs (v :: seen)
    | none => dedupData rs seen

/-- Step 2.2 (part_001 lines 55-70): keep the header (the first row, or
`[]` when there is none), then dedup the data rows. -/
def dedupTable (rawData : List Row) : List Row :=
  rawData.headD [] :: dedupData (rawData.drop 1) []

/-- What a kept data row looks like after key coercion: first cell
replaced by the coerced number, untouched otherwise. -/
def coerceKey (r : Row) : Row :=
  match jsNumber (getCell r 0) with
  | some v => Cell.num v :: r.drop 1
  | none => r

/-- Step 2.3 (part_001 line 73): `row => [row[0], ...row.slice(7)]`,
deleting columns with indices 1 through 6 from every row. -/
def pruneTable (rows : List Row) : List Row :=
  rows.map (fun r => getCell r 0 :: r.drop 7)

/-- Step 2.4 (part_001 lines 76-78): rename the header cell at index 1
to "CTR" when the header has more than one cell. -/
def renameCTR (rows : List Row) : List Row :=
  match rows with
  | [] => []
  | h :: t => if 1 < h.length then h.set 1 (Cell.str "CTR") :: t else h :: t

/-- Step 3 (part_001 lines 87-96) over the data rows of the info table:
coerce column B (index 1) to a number as key and store the cell at
column G (index 6); first occurrence of a key wins.  The skip of later
occurrences is modelled by consing in table order, so that `List.lookup`
finds the first occurrence. -/
def buildInfoIndex : List Row → List (Int × Cell)
  | [] => []
  | r :: rest =>
    match jsNumber (getCell r 1) with
    | some k => (k, getCell r 6) :: buildInfoIndex rest
    | none => buildInfoIndex rest

/-- Step 4 (part_001 lines 105-112) over the data rows of the duplicate
table: the set of keys obtained by coercing column G (index 6). -/
def buildDupIndex (rows : List Row) : List Int :=
  rows.filterMap (fun r => jsNumber (getCell r 6))

/-- `infoLookup.get(key) ?? '#N/A'` (part_001 line 120): the stored cell
for the key, with `??` replacing both a missing key and a stored
`undefined` value by the string "#N/A". -/
def infoVal (idx : List (Int × Cell)) (k : Int) : Cell :=
  match idx.lookup k with
  | some c => if c = Cell.undef then Cell.str "#N/A" else c
  | none => Cell.str "#N/A"

/-- Step 5 for one data row (part_001 lines 119-122): append the info
lookup for `row[0]` and then the key itself when the key is in the
duplicate index, "#N/A" otherwise.  A non-numeric `row[0]` (impossible
after normalization) misses both the number-keyed map and the set. -/
def enrichRow (idx : List (Int × Cell)) (dup : List Int) (r : Row) : Row :=
  match getCell r 0 with
  | Cell.num k => r ++ [infoVal idx k, if k ∈ dup then Cell.num k else Cell.str "#N/A"]
  | _ => r ++ [Cell.str "#N/A", Cell.str "#N/A"]

/-- Step 5 (part_001 lines 115-123): the header row gains the two labels
"Info_VLOOKUP" and "Dup_VLOOKUP"; every data row is enriched by
`enrichRow`. -/
def enrich (rows : List Row) (idx : List (Int × Cell)) (dup : List Int) : List Row :=
  match rows with
  | [] => []
  | h :: t => (h ++ [Cell.str "Info_VLOOKUP", Cell.str "Dup_VLOOKUP"]) :: t.map (enrichRow idx dup)

/-- `runInitialProcessing` of part_001, on already decoded tables.
`rawWs = none` models `rawWb.Sheets[rawWb.SheetNames[0]]` being absent
(line 43), the only error path for the raw table; a worksheet that
decodes to zero rows arrives as `some []`.  The info and duplicate
arguments are the tables of the worksheets located by the reader
collaborator; `buildInfoIndex`/`buildDupIndex` are applied to their data
rows (the loops start at i = 1). -/
def runInitialProcessing (rawWs : Option (List Row)) (infoData dupData : List Row)
    (zf : ZraxFilter) : Except String (List Row) :=
  match rawWs with
  | none => Except.error "Raw Data file is empty or corrupted."
  | some raw =>
    let d1 := applyOZ zf raw
    let d2 := dedupTable d1
    let d3 := renameCTR (pruneTable d2)
    Except.ok (enrich d3 (buildInfoIndex (infoData.drop 1)) (buildDupIndex (dupData.drop 1)))

/-- The four work categories. -/
inductive Bucket where
  | CN | JP | SPECIAL | GENERAL
deriving DecidableEq, Repr

/-- The special-code set of part_001 line 167 (nine codes). -/
def specialCodes : List String :=
  ["RU", "UA", "NI", "VE", "BY", "CU", "IR", "KP", "SY"]

/-- The smaller special-code set of src/services/excelProcessor.ts line
165 (five codes). -/
def specialCodesEP : List String := ["RU", "UA", "NI", "VE", "BY"]

/-- JS `s.toUpperCase()` on ASCII letters, as a map over the character
data. -/
def toUpperStr (s : String) : String := ⟨s.data.map Char.toUpper⟩

/-- JS `s.toLowerCase()` on ASCII letters, as a map over the character
data. -/
def toLowerStr (s : String) : String := ⟨s.data.map Char.toLower⟩

/-- part_001 line 170: the string the categorizer inspects — the
uppercased string form of the cell when the cell is truthy, `""`
otherwise. -/
def infoValueOf (r : Row) (idx : Nat) : String :=
  let c := getCell r idx
  if truthy c then toUpperStr (cellToString c) else ""

/-- part_001 lines 171-174: first-match priority chain over the
inspected string — contains "CN", else contains "JP", else contains one
of the nine special codes, else GENERAL. -/
def categorize (s : String) : Bucket :=
  if strIncludes s "CN" then Bucket.CN
  else if strIncludes s "JP" then Bucket.JP
  else if specialCodes.any (fun code => strIncludes s code) then Bucket.SPECIAL
  else Bucket.GENERAL

/-- The same chain with the five-code set, as in excelProcessor.ts lines
170-178. -/
def categorizeEP (s : String) : Bucket :=
  if strIncludes s "CN" then Bucket.CN
  else if strIncludes s "JP" then Bucket.JP
  else if specialCodesEP.any (fun code => strIncludes s code) then Bucket.SPECIAL
  else Bucket.GENERAL

/-- The rows that the `forEach` of part_001 lines 169-175 pushes into
the array of bucket `b`: in input order, exactly those whose inspected
info value categorizes to `b` (each is pushed as the copy `[...row]`,
which is the same value). -/
def bucketRows (b : Bucket) (idx : Nat) (rows : List Row) : List Row :=
  rows.filter (fun r => categorize (infoValueOf r idx) == b)

/-- The fixed sentinel owner for a bucket with no assignees. -/
def sentinelOf : Bucket → String
  | Bucket.CN => "UNASSIGNED_CN"
  | Bucket.JP => "UNASSIGNED_JP"
  | Bucket.SPECIAL => "UNASSIGNED_SPECIAL"
  | Bucket.GENERAL => "UNASSIGNED_GENERAL"

/-- The `forEach((row, index) => row.unshift(names[index % names.length]))`
loop, carrying the running index: the row at offset `i` gets
`names[i % names.length]` prepended. -/
def assignGo (names : List String) : Nat → List Row → List Row
  | _, [] => []
  | i, r :: rs => (Cell.str (names.getD (i % names.length) "") :: r) :: assignGo names (i + 1) rs

/-- part_001 lines 177-187 for one bucket: with a non-empty name list,
prepend names cyclically by position; with an empty list, prepend the
bucket sentinel to every row. -/
def assignBucket (names : List String) (sent : String) (rows : List Row) : List Row :=
  if names.isEmpty then rows.map (fun r => Cell.str sent :: r)
  else assignGo names 0 rows

/-- `processAndAssign` of part_001 lines 162-190: categorize the given
rows into the four buckets, assign each bucket, and concatenate
CN ++ JP ++ SPECIAL ++ GENERAL. -/
def processAndAssign (infoIdx : Nat) (cn jp sp gen : List String) (rows : List Row) : List Row :=
  assignBucket cn (sentinelOf Bucket.CN) (bucketRows Bucket.CN infoIdx rows)
    ++ assignBucket jp (sentinelOf Bucket.JP) (bucketRows Bucket.JP infoIdx rows)
    ++ assignBucket sp (sentinelOf Bucket.SPECIAL) (bucketRows Bucket.SPECIAL infoIdx rows)
    ++ assignBucket gen (sentinelOf Bucket.GENERAL) (bucketRows Bucket.GENERAL infoIdx rows)

/-- JS `header.findIndex(h => h === target)` for a string target,
returning `none` for -1. -/
def findIndexStr (row : Row) (target : String) : Option Nat :=
  row.findIdx? (fun c => c == Cell.str target)

/-- `row[0] as string` on an assigned row: the prepended owner name
(every assigned row starts with a string cell by construction). -/
def headScreener (r : Row) : String :=
  match getCell r 0 with
  | Cell.str s => s
  | _ => ""

/-- One `screenerCounts.set(s, (screenerCounts.get(s) || 0) + 1)` step
on the insertion-ordered entry list of the JS `Map`: bump the first
entry with this key, or append a fresh `(s, 1)` entry at the end. -/
def upsert (k : String) : List (String × Nat) → List (String × Nat)
  | [] => [(k, 1)]
  | (k', c) :: rest => if k' = k then (k', c + 1) :: rest else (k', c) :: upsert k rest

/-- part_001 lines 215-219: tally the owner names of the assigned rows
into the insertion-ordered `Map` entry list. -/
def tally (ns : List String) : List (String × Nat) :=
  ns.foldl (fun acc k => upsert k acc) []

/-- Swap the case of every ASCII letter. -/
def flipCase (s : String) : String :=
  ⟨s.data.map (fun c => if c.isLower then c.toUpper else if c.isUpper then c.toLower else c)⟩

/-- Strict lexicographic order on character lists by code point — the
order underlying ordinary string comparison. -/
def charListLt : List Char → List Char → Bool
  | [], [] => false
  | [], _ :: _ => true
  | _ :: _, [] => false
  | a :: as, b :: bs => decide (a < b) || (a == b && charListLt as bs)

/-- Lexicographic less-or-equal on character lists. -/
def charListLe (x y : List Char) : Bool := !charListLt y x

/-- Ordinary (code-unit) lexicographic less-or-equal on strings. -/
def lexLe (s t : String) : Bool := charListLe s.data t.data

/-- Model of `a.localeCompare(b) <= 0` for ASCII strings under the
default (root) collation: compare case-insensitively first and, when the
lowercased strings are equal, order lowercase letters before uppercase
ones (e.g. "a" precedes "B", and "ab" precedes "Ab"). -/
def localeLe (s t : String) : Bool :=
  charListLt (toLowerStr s).data (toLowerStr t).data ||
    (toLowerStr s == toLowerStr t && charListLe (flipCase s).data (flipCase t).data)

/-- The pivot order: entry `a` may precede entry `b` when the names
compare `localeCompare`-ascending. -/
def pivotRel (a b : String × Nat) : Prop := localeLe a.1 b.1 = true

instance : DecidableRel pivotRel := fun a b => Bool.decEq (localeLe a.1 b.1) true

instance exceptDecEq {ε : Type u} {α : Type v} [DecidableEq ε] [DecidableEq α] :
    DecidableEq (Except ε α)
  | Except.ok a, Except.ok b =>
    if h : a = b then Decidable.isTrue (by rw [h])
    else Decidable.isFalse (fun he => h (Except.ok.inj he))
  | Except.ok a, Except.error e => Decidable.isFalse (fun he => Except.noConfusion he)
  | Except.error e, Except.ok a => Decidable.isFalse (fun he => Except.noConfusion he)
  | Except.error e, Except.error f =>
    if h : e = f then Decidable.isTrue (by rw [h])
    else Decidable.isFalse (fun he => h (Except.error.inj he))

/-- part_001 lines 221-224: the pivot — the tally entries sorted by
`localeCompare` on the name.  JS `Array.sort` is stable, and a stable
sort under a total preorder comparator has a unique result, so the
stable `insertionSort` models it faithfully. -/
def pivotOf (rows : List Row) : List (String × Nat) :=
  (tally (rows.map headScreener)).insertionSort pivotRel

/-- part_001 line 201: `row.length > 19 && row[19] === 'ZRAX'`. -/
def zraxRowPred (r : Row) : Bool :=
  decide (19 < r.length) && (getCell r 19 == Cell.str "ZRAX")

/-- `assignAndGenerateExcel` of part_001 lines 132-224, modelled up to
the data handed to the writer: the value is the pair of the final
assigned rows and the pivot.  With fewer than two rows the early return
produces no assigned rows and an empty pivot; otherwise the data rows
are filtered on `Dup_VLOOKUP = "#N/A"`, split flagged-then-other under
`ZOP`, categorized and assigned by `processAndAssign`, and tallied.  The
two missing-column errors are raised in source order (the
`Info_VLOOKUP` check sits inside `processAndAssign`, which is always
reached when both columns are looked up).  The CTR-column splice and
header styling of lines 229-261 only shape the serialized sheet and are
outside the model. -/
def assignAndGenerateExcel (pd : List Row) (cn jp sp gen : List String)
    (zf : ZraxFilter) : Except String (List Row × List (String × Nat)) :=
  let header := pd.headD []
  if pd.length < 2 then Except.ok ([], [])
  else
    match findIndexStr header "Dup_VLOOKUP" with
    | none => Except.error "\x27Dup_VLOOKUP\x27 column not found. Cannot perform filtering."
    | some dupIdx =>
      match findIndexStr header "Info_VLOOKUP" with
      | none => Except.error "\x27Info_VLOOKUP\x27 column not found."
      | some infoIdx =>
        let filteredRows := (pd.drop 1).filter (fun r => getCell r dupIdx == Cell.str "#N/A")
        let finalRows :=
          if zf = ZraxFilter.ZOP then
            processAndAssign infoIdx cn jp sp gen (filteredRows.filter zraxRowPred)
              ++ processAndAssign infoIdx cn jp sp gen (filteredRows.filter (fun r => !zraxRowPred r))
          else processAndAssign infoIdx cn jp sp gen filteredRows
        Except.ok (finalRows, pivotOf finalRows)

/-- Name picked for the row at position `i` of a bucket: the cyclic name
or the sentinel when the list is empty. -/
def pickName (names : List String) (sent : String) (i : Nat) : String :=
  if names.isEmpty then sent else names.getD (i % names.length) ""

/-- The in-place mutations that `assignAndGenerateExcel` of
src/services/excelProcessor.ts performs on the rows aliased from its
`processedData` argument: walking the data rows in order with one
position counter per bucket, a row surviving the `Dup_VLOOKUP` filter is
pushed (without copying) into its bucket array and later has its
assigned owner name unshifted onto it; a filtered-out row is left
untouched. -/
def epGo (infoIdx dupIdx : Nat) (cn jp sp gen : List String) :
    List Row → Nat → Nat → Nat → Nat → List Row
  | [], _, _, _, _ => []
  | r :: rs, i, j, k, l =>
    if getCell r dupIdx == Cell.str "#N/A" then
      match categorizeEP (infoValueOf r infoIdx) with
      | Bucket.CN =>
        (Cell.str (pickName cn "UNASSIGNED_CN" i) :: r) :: epGo infoIdx dupIdx cn jp sp gen rs (i + 1) j k l
      | Bucket.JP =>
        (Cell.str (pickName jp "UNASSIGNED_JP" j) :: r) :: epGo infoIdx dupIdx cn jp sp gen rs i (j + 1) k l
      | Bucket.SPECIAL =>
        (Cell.str (pickName sp "UNASSIGNED_SPECIAL" k) :: r) :: epGo infoIdx dupIdx cn jp sp gen rs i j (k + 1) l
      | Bucket.GENERAL =>
        (Cell.str (pickName gen "UNASSIGNED_GENERAL" l) :: r) :: epGo infoIdx dupIdx cn jp sp gen rs i j k (l + 1)
    else r :: epGo infoIdx dupIdx cn jp sp gen rs i j k l

/-- The contents of the `processedData` argument after calling
`assignAndGenerateExcel` of src/services/excelProcessor.ts (lines
127-222): that variant takes `header = processedData[0]` by reference
and runs `header.unshift('Screener')` (line 158), and pushes the
filtered data rows into the bucket arrays without copying before
unshifting the owner names onto them, so the caller's table is changed
in place.  The early return (fewer than two rows) and the two
missing-column throws happen before any mutation. -/
def assignAndGenerateExcelEPEffect (pd : List Row) (cn jp sp gen : List String) : List Row :=
  if pd.length < 2 then pd
  else
    match pd with
    | [] => pd
    | header :: dataRows =>
      match findIndexStr header "Dup_VLOOKUP", findIndexStr header "Info_VLOOKUP" with
      | some dupIdx, some infoIdx =>
        (Cell.str "Screener" :: header) :: epGo infoIdx dupIdx cn jp sp gen dataRows 0 0 0 0
      | _, _ => pd

/-- A concrete CN-only bucket input: three enriched rows whose info cell
(index 1) reads "CN". -/
def cnExample : List Row :=
  [[Cell.num 1, Cell.str "CN"], [Cell.num 2, Cell.str "CN"], [Cell.num 3, Cell.str "CN"]]

lemma assignGo_length (names : List String) :
    ∀ (i : Nat) (rows : List Row), (assignGo names i rows).length = rows.length := by
  intro i rows
  induction rows generalizing i with
  | nil => rfl
  | cons r rs ih => simp [assignGo, ih]

lemma assignGo_getD (names : List String) :
    ∀ (rows : List Row) (i j : Nat), j < rows.length →
      (assignGo names i rows).getD j []
        = Cell.str (names.getD ((i + j) % names.length) "") :: rows.getD j [] := by
  intro rows
  induction rows with
  | nil => intro i j h; simp at h
  | cons r rs ih =>
    intro i j h
    cases j with
    | zero => simp [assignGo]
    | succ j =>
      have hj : j < rs.length := by simpa using h
      have := ih (i + 1) j hj
      simp only [assignGo, List.getD_cons_succ]
      rw [this]
      have : i + 1 + j = i + (j + 1) := by omega
      rw [this]

lemma assignBucket_length (names : List String) (sent : String) (rows : List Row) :
    (assignBucket names sent rows).length = rows.length := by
  unfold assignBucket
  by_cases h : names.isEmpty <;> simp [h, assignGo_length]

/-- C1: within every bucket produced by categorization, a non-empty
assignee list of length m gives the row at 0-based position i the owner
`names[i % m]` prepended as a new first cell, rows kept in their
original relative order; an empty list gives every row the bucket
sentinel.  In particular `processAndAssign` on a CN bucket of 3 rows
with names ["Alice", "Bob"] assigns Alice, Bob, Alice. -/
theorem assign_round_robin :
    (∀ (names : List String) (sent : String) (rows : List Row), names ≠ [] →
      (assignBucket names sent rows).length = rows.length ∧
      ∀ i : Nat, i < rows.length →
        (assignBucket names sent rows).getD i []
          = Cell.str (names.getD (i % names.length) "") :: rows.getD i []) ∧
    (∀ (names : List String) (sent : String) (rows : List Row), names = [] →
      assignBucket names sent rows = rows.map (fun r => Cell.str sent :: r)) ∧
    ((processAndAssign 1 ["Alice", "Bob"] [] [] [] cnExample).map (fun r => getCell r 0)
      = [Cell.str "Alice", Cell.str "Bob", Cell.str "Alice"]) := by
  refine ⟨?_, ?_, ?_⟩
  · intro names sent rows hne
    have hempty : names.isEmpty = false := by
      cases names with
      | nil => exact absurd rfl hne
      | cons a t => rfl
    refine ⟨assignBucket_length names sent rows, ?_⟩
    intro i hi
    unfold assignBucket
    rw [hempty]
    simp only [Bool.false_eq_true, if_false]
    have := assignGo_getD names rows 0 i hi
    simpa using this
  · intro names sent rows h
    subst h
    rfl
  · decide

/-- C1 witness: the round-robin theorem applied to the concrete bucket
["A"] / "S" / one row. -/
theorem assign_round_robin_witness :
    ((["A"] : List String) ≠ []) ∧
    ((assignBucket ["A"] "S" [[Cell.num 5]]).length = ([[Cell.num 5]] : List Row).length ∧
      ∀ i : Nat, i < ([[Cell.num 5]] : List Row).length →
        (assignBucket ["A"] "S" [[Cell.num 5]]).getD i []
          = Cell.str ((["A"] : List String).getD (i % (["A"] : List String).length) "")
              :: ([[Cell.num 5]] : List Row).getD i []) :=
  ⟨by decide, assign_round_robin.1 ["A"] "S" [[Cell.num 5]] (by decide)⟩

/-- C9 counterexample: a raw worksheet that is present but decodes to
zero rows is not an error — `runInitialProcessing` succeeds and returns
the degenerate header-only table. -/
theorem empty_rows_no_error :
    runInitialProcessing (some []) [] [] ZraxFilter.NONE
      = Except.ok [[Cell.undef, Cell.str "Info_VLOOKUP", Cell.str "Dup_VLOOKUP"]] := by
  rfl

/-- C9 (amended): the initial processing step raises its raw-table error
exactly when the raw workbook has no usable first worksheet; whenever a
worksheet is present — even with zero decoded rows — the step returns a
result. -/
theorem initial_processing_error_iff_missing_sheet :
    (∀ (rows infoD dupD : List Row) (zf : ZraxFilter),
      ∃ out, runInitialProcessing (some rows) infoD dupD zf = Except.ok out) ∧
    (∀ (infoD dupD : List Row) (zf : ZraxFilter),
      runInitialProcessing none infoD dupD zf
        = Except.error "Raw Data file is empty or corrupted.") := by
  exact ⟨fun rows i d zf => ⟨_, rfl⟩, fun i d zf => rfl⟩

lemma categorize_infoValueOf (r : Row) (idx : Nat) :
    categorize (infoValueOf r idx) = categorize (toUpperStr (cellToString (getCell r idx))) := by
  unfold infoValueOf
  cases h : getCell r idx with
  | str s =>
    by_cases hs : s = ""
    · subst hs; simp only [truthy]; decide
    · have ht : truthy (Cell.str s) = true := by simp [truthy, hs]
      simp [ht]
  | num n =>
    by_cases hn : n = 0
    · subst hn; simp only [truthy]; decide
    · have ht : truthy (Cell.num n) = true := by simp [truthy, hn]
      simp [ht]
  | undef => simp only [truthy]; decide

lemma bucketRows_length_sum (idx : Nat) (rows : List Row) :
    (bucketRows Bucket.CN idx rows).length + (bucketRows Bucket.JP idx rows).length
      + (bucketRows Bucket.SPECIAL idx rows).length
      + (bucketRows Bucket.GENERAL idx rows).length = rows.length := by
  induction rows with
  | nil => rfl
  | cons r rs ih =>
    unfold bucketRows at ih ⊢
    cases h : categorize (infoValueOf r idx) <;>
      simp only [List.filter_cons, h] <;> simp <;> omega

lemma bucketRows_mem (b : Bucket) (idx : Nat) (rows : List Row) (r : Row) :
    r ∈ bucketRows b idx rows ↔ r ∈ rows ∧ categorize (infoValueOf r idx) = b := by
  simp [bucketRows, List.mem_filter]

/-- C2: every filtered row is placed in exactly one of the four buckets,
decided by the first-match priority chain (`categorize`) over the
upper-cased string form of its Info_VLOOKUP cell (the code inspects `""`
for falsy cells, which lands in the same bucket); consequently the four
bucket sizes sum to the number of filtered rows. -/
theorem categorization_partition :
    (∀ (r : Row) (idx : Nat),
      categorize (infoValueOf r idx) = categorize (toUpperStr (cellToString (getCell r idx)))) ∧
    (∀ (b : Bucket) (idx : Nat) (rows : List Row) (r : Row),
      r ∈ bucketRows b idx rows ↔ r ∈ rows ∧ categorize (infoValueOf r idx) = b) ∧
    (∀ (idx : Nat) (rows : List Row),
      (bucketRows Bucket.CN idx rows).length + (bucketRows Bucket.JP idx rows).length
        + (bucketRows Bucket.SPECIAL idx rows).length
        + (bucketRows Bucket.GENERAL idx rows).length = rows.length) :=
  ⟨categorize_infoValueOf, fun b idx rows r => bucketRows_mem b idx rows r,
    bucketRows_length_sum⟩

lemma assignGo_map_drop (names : List String) :
    ∀ (i : Nat) (rows : List Row), (assignGo names i rows).map (fun r => r.drop 1) = rows := by
  intro i rows
  induction rows generalizing i with
  | nil => rfl
  | cons r rs ih =>
    simp only [assignGo, List.map_cons, List.drop_succ_cons, List.drop_zero]
    rw [ih]

lemma assignBucket_map_drop (names : List String) (sent : String) (rows : List Row) :
    (assignBucket names sent rows).map (fun r => r.drop 1) = rows := by
  unfold assignBucket
  by_cases h : names.isEmpty
  · rw [if_pos h, List.map_map]
    have hid : ((fun r => List.drop 1 r) ∘ fun r : Row => Cell.str sent :: r) = fun r : Row => r := by
      funext r
      simp
    rw [hid, List.map_id']
  · rw [if_neg h]
    exact assignGo_map_drop names 0 rows

lemma processAndAssign_map_drop (infoIdx : Nat) (cn jp sp gen : List String) (rows : List Row) :
    (processAndAssign infoIdx cn jp sp gen rows).map (fun r => r.drop 1)
      = bucketRows Bucket.CN infoIdx rows ++ bucketRows Bucket.JP infoIdx rows
        ++ bucketRows Bucket.SPECIAL infoIdx rows ++ bucketRows Bucket.GENERAL infoIdx rows := by
  unfold processAndAssign
  rw [List.map_append, List.map_append, List.map_append,
    assignBucket_map_drop, assignBucket_map_drop, assignBucket_map_drop, assignBucket_map_drop]

lemma bucketRows_cons_self (b : Bucket) (idx : Nat) (r : Row) (rs : List Row)
    (h : categorize (infoValueOf r idx) = b) :
    bucketRows b idx (r :: rs) = r :: bucketRows b idx rs := by
  simp [bucketRows, List.filter_cons, h]

lemma bucketRows_cons_ne (b : Bucket) (idx : Nat) (r : Row) (rs : List Row)
    (h : categorize (infoValueOf r idx) ≠ b) :
    bucketRows b idx (r :: rs) = bucketRows b idx rs := by
  simp [bucketRows, List.filter_cons, h]

lemma four_buckets_perm (idx : Nat) (rows : List Row) :
    (bucketRows Bucket.CN idx rows ++ bucketRows Bucket.JP idx rows
      ++ bucketRows Bucket.SPECIAL idx rows ++ bucketRows Bucket.GENERAL idx rows).Perm rows := by
  induction rows with
  | nil => simp [bucketRows]
  | cons r rs ih =>
    cases h : categorize (infoValueOf r idx) with
    | CN =>
      rw [bucketRows_cons_self _ _ _ _ h,
        bucketRows_cons_ne _ _ _ _ (by rw [h]; decide),
        bucketRows_cons_ne _ _ _ _ (by rw [h]; decide),
        bucketRows_cons_ne _ _ _ _ (by rw [h]; decide)]
      exact ih.cons r
    | JP =>
      rw [bucketRows_cons_ne _ _ _ _ (by rw [h]; decide),
        bucketRows_cons_self _ _ _ _ h,
        bucketRows_cons_ne _ _ _ _ (by rw [h]; decide),
        bucketRows_cons_ne _ _ _ _ (by rw [h]; decide)]
      exact ((List.perm_middle.append_right _).append_right _).trans (ih.cons r)
    | SPECIAL =>
      rw [bucketRows_cons_ne _ _ _ _ (by rw [h]; decide),
        bucketRows_cons_ne _ _ _ _ (by rw [h]; decide),
        bucketRows_cons_self _ _ _ _ h,
        bucketRows_cons_ne _ _ _ _ (by rw [h]; decide)]
      exact (List.perm_middle.append_right _).trans (ih.cons r)
    | GENERAL =>
      rw [bucketRows_cons_ne _ _ _ _ (by rw [h]; decide),
        bucketRows_cons_ne _ _ _ _ (by rw [h]; decide),
        bucketRows_cons_ne _ _ _ _ (by rw [h]; decide),
        bucketRows_cons_self _ _ _ _ h]
      exact List.perm_middle.trans (ih.cons r)

lemma processAndAssign_drop_perm (infoIdx : Nat) (cn jp sp gen : List String) (rows : List Row) :
    ((processAndAssign infoIdx cn jp sp gen rows).map (fun r => r.drop 1)).Perm rows := by
  rw [processAndAssign_map_drop]
  exact four_buckets_perm infoIdx rows

/-- C3: the assignment step keeps a data row exactly when its
`Dup_VLOOKUP` cell is the literal string "#N/A" — the tails of the final
assigned rows (each row minus its prepended owner cell) are a
permutation of precisely those data rows, so a row whose key was found
in the duplicate index (its cell holds the numeric key, not "#N/A") is
excluded from categorization, assignment and the final output. -/
theorem dup_filter_retains :
    ∀ (pd : List Row) (cn jp sp gen : List String) (zf : ZraxFilter)
      (out : List Row × List (String × Nat)) (dupIdx : Nat),
      assignAndGenerateExcel pd cn jp sp gen zf = Except.ok out →
      findIndexStr (pd.headD []) "Dup_VLOOKUP" = some dupIdx →
      ((out.1.map (fun r => r.drop 1)).Perm
          ((pd.drop 1).filter (fun r => getCell r dupIdx == Cell.str "#N/A")) ∧
        ∀ r : Row, r ∈ out.1.map (fun r => r.drop 1)
          ↔ r ∈ pd.drop 1 ∧ getCell r dupIdx = Cell.str "#N/A") := by
  intro pd cn jp sp gen zf out dupIdx hok hfind
  unfold assignAndGenerateExcel at hok
  by_cases hlen : pd.length < 2
  · rw [if_pos hlen] at hok
    have hout : ([], ([] : List (String × Nat))) = out := Except.ok.inj hok
    have hdrop : pd.drop 1 = [] := List.drop_eq_nil_of_le (by omega)
    rw [← hout]
    constructor
    · simp [hdrop]
    · intro r
      simp [hdrop]
  · rw [if_neg hlen, hfind] at hok
    cases hinfo : findIndexStr (pd.headD []) "Info_VLOOKUP" with
    | none =>
      rw [hinfo] at hok
      exact absurd hok (by simp)
    | some infoIdx =>
      rw [hinfo] at hok
      dsimp only at hok
      by_cases hz : zf = ZraxFilter.ZOP
      · rw [if_pos hz] at hok
        have hout := Except.ok.inj hok
        rw [← hout]
        constructor
        · dsimp only
          rw [List.map_append]
          exact ((processAndAssign_drop_perm _ _ _ _ _ _).append
            (processAndAssign_drop_perm _ _ _ _ _ _)).trans
            (List.filter_append_perm _ _)
        · intro r
          dsimp only
          rw [List.map_append]
          have hperm := ((processAndAssign_drop_perm infoIdx cn jp sp gen
              (((pd.drop 1).filter (fun r => getCell r dupIdx == Cell.str "#N/A")).filter
                zraxRowPred)).append
            (processAndAssign_drop_perm infoIdx cn jp sp gen
              (((pd.drop 1).filter (fun r => getCell r dupIdx == Cell.str "#N/A")).filter
                (fun r => !zraxRowPred r)))).trans
            (List.filter_append_perm _ _)
          rw [hperm.mem_iff, List.mem_filter]
          simp [beq_iff_eq]
      · rw [if_neg hz] at hok
        have hout := Except.ok.inj hok
        rw [← hout]
        constructor
        · dsimp only
          exact processAndAssign_drop_perm _ _ _ _ _ _
        · intro r
          dsimp only
          rw [(processAndAssign_drop_perm _ _ _ _ _ _).mem_iff, List.mem_filter]
          simp [beq_iff_eq]

/-- C3 witness: the retention theorem applied to a concrete processed
table with one kept row and one duplicate-hit row. -/
theorem dup_filter_retains_witness :
    (assignAndGenerateExcel
        [[Cell.str "K", Cell.str "Info_VLOOKUP", Cell.str "Dup_VLOOKUP"],
          [Cell.num 1, Cell.str "CN", Cell.str "#N/A"],
          [Cell.num 2, Cell.str "Q", Cell.num 2]]
        [] [] [] [] ZraxFilter.NONE
      = Except.ok
          ([[Cell.str "UNASSIGNED_CN", Cell.num 1, Cell.str "CN", Cell.str "#N/A"]],
            [("UNASSIGNED_CN", 1)])) ∧
    (findIndexStr
        (([[Cell.str "K", Cell.str "Info_VLOOKUP", Cell.str "Dup_VLOOKUP"],
          [Cell.num 1, Cell.str "CN", Cell.str "#N/A"],
          [Cell.num 2, Cell.str "Q", Cell.num 2]] : List Row).headD []) "Dup_VLOOKUP" = some 2) ∧
    ((([[Cell.str "UNASSIGNED_CN", Cell.num 1, Cell.str "CN", Cell.str "#N/A"]],
          [("UNASSIGNED_CN", 1)]) : List Row × List (String × Nat)).1.map (fun r => r.drop 1)).Perm
        ((([[Cell.str "K", Cell.str "Info_VLOOKUP", Cell.str "Dup_VLOOKUP"],
          [Cell.num 1, Cell.str "CN", Cell.str "#N/A"],
          [Cell.num 2, Cell.str "Q", Cell.num 2]] : List Row).drop 1).filter
          (fun r => getCell r 2 == Cell.str "#N/A")) := by
  refine ⟨by decide, by decide, ?_⟩
  exact (dup_filter_retains
    [[Cell.str "K", Cell.str "Info_VLOOKUP", Cell.str "Dup_VLOOKUP"],
      [Cell.num 1, Cell.str "CN", Cell.str "#N/A"],
      [Cell.num 2, Cell.str "Q", Cell.num 2]]
    [] [] [] [] ZraxFilter.NONE
    ([[Cell.str "UNASSIGNED_CN", Cell.num 1, Cell.str "CN", Cell.str "#N/A"]],
      [("UNASSIGNED_CN", 1)]) 2 (by decide) (by decide)).1

lemma lookup_buildInfoIndex (rows : List Row) (k : Int) :
    (buildInfoIndex rows).lookup k
      = (rows.find? (fun q => jsNumber (getCell q 1) == some k)).map (fun q => getCell q 6) := by
  induction rows with
  | nil => rfl
  | cons r rest ih =>
    cases hr : jsNumber (getCell r 1) with
    | none =>
      simp only [buildInfoIndex, hr]
      rw [List.find?_cons_of_neg _ (by simp [hr])]
      exact ih
    | some v =>
      simp only [buildInfoIndex, hr]
      by_cases hv : k = v
      · subst hv
        rw [List.find?_cons_of_pos _ (by simp [hr])]
        simp [List.lookup]
      · have hb : (k == v) = false := beq_false_of_ne hv
        rw [List.find?_cons_of_neg _ (by simp [hr]; exact fun h => hv h.symm)]
        simp only [List.lookup, hb]
        exact ih

/-- C4: enrichment appends exactly two trailing cells to every data row
— first the first-seen column-G value stored for the row's key in the
info table (the first info data row whose column-B cell coerces to the
key), or the string "#N/A" when no info row matches; then the key itself
when the key is in the duplicate index, "#N/A" otherwise — while the
header row gains the two literal labels.  The hypothesis says the info
table's column-G cells exist (the reader decodes missing cells to "",
never `undefined`). -/
theorem enrich_vlookup :
    ∀ (infoRows : List Row) (dup : List Int) (hd : Row) (rows : List Row),
      (∀ q ∈ infoRows, getCell q 6 ≠ Cell.undef) →
      enrich (hd :: rows) (buildInfoIndex infoRows) dup
        = (hd ++ [Cell.str "Info_VLOOKUP", Cell.str "Dup_VLOOKUP"])
          :: rows.map (fun r =>
            match getCell r 0 with
            | Cell.num k =>
              r ++ [(match infoRows.find? (fun q => jsNumber (getCell q 1) == some k) with
                      | some q => getCell q 6
                      | none => Cell.str "#N/A"),
                    if k ∈ dup then Cell.num k else Cell.str "#N/A"]
            | _ => r ++ [Cell.str "#N/A", Cell.str "#N/A"]) := by
  intro infoRows dup hd rows hwf
  unfold enrich
  dsimp only
  congr 1
  apply List.map_congr_left
  intro r hr
  cases h0 : getCell r 0 with
  | num k =>
    simp only [enrichRow, h0]
    have hinfo : infoVal (buildInfoIndex infoRows) k
        = (match infoRows.find? (fun q => jsNumber (getCell q 1) == some k) with
            | some q => getCell q 6
            | none => Cell.str "#N/A") := by
      unfold infoVal
      rw [lookup_buildInfoIndex]
      cases hf : infoRows.find? (fun q => jsNumber (getCell q 1) == some k) with
      | none => simp
      | some q =>
        have hq : q ∈ infoRows := List.mem_of_find?_eq_some hf
        simp [hwf q hq]
    rw [hinfo]
  | str s => simp only [enrichRow, h0]
  | undef => simp only [enrichRow, h0]

/-- C4 witness: the enrichment theorem applied to a concrete info table
(one full-width row keyed 5 with column-G value "CN"), duplicate index
containing 6, and two data rows keyed 5 and 6. -/
theorem enrich_vlookup_witness :
    (∀ q ∈ ([[Cell.str "h", Cell.num 5, Cell.str "c", Cell.str "d",
        Cell.str "e", Cell.str "f", Cell.str "CN"]] : List Row), getCell q 6 ≠ Cell.undef) ∧
    enrich ([Cell.str "ID"] :: [[Cell.num 5], [Cell.num 6]])
        (buildInfoIndex [[Cell.str "h", Cell.num 5, Cell.str "c", Cell.str "d",
          Cell.str "e", Cell.str "f", Cell.str "CN"]]) [6]
      = (([Cell.str "ID"] : Row) ++ [Cell.str "Info_VLOOKUP", Cell.str "Dup_VLOOKUP"])
        :: ([[Cell.num 5], [Cell.num 6]] : List Row).map (fun r =>
          match getCell r 0 with
          | Cell.num k =>
            r ++ [(match ([[Cell.str "h", Cell.num 5, Cell.str "c", Cell.str "d",
                    Cell.str "e", Cell.str "f", Cell.str "CN"]] : List Row).find?
                    (fun q => jsNumber (getCell q 1) == some k) with
                    | some q => getCell q 6
                    | none => Cell.str "#N/A"),
                  if k ∈ ([6] : List Int) then Cell.num k else Cell.str "#N/A"]
          | _ => r ++ [Cell.str "#N/A", Cell.str "#N/A"]) :=
  ⟨by decide,
    enrich_vlookup [[Cell.str "h", Cell.num 5, Cell.str "c", Cell.str "d",
      Cell.str "e", Cell.str "f", Cell.str "CN"]] [6] [Cell.str "ID"]
      [[Cell.num 5], [Cell.num 6]] (by decide)⟩

lemma dedupData_sublist :
    ∀ (rows : List Row) (seen : List Int),
      (dedupData rows seen).Sublist (rows.map coerceKey) := by
  intro rows
  induction rows with
  | nil => intro seen; simp [dedupData]
  | cons r rs ih =>
    intro seen
    cases hr : jsNumber (getCell r 0) with
    | none =>
      simp only [dedupData, hr, List.map_cons]
      exact (ih seen).cons _
    | some v =>
      by_cases hv : v ∈ seen
      · simp only [dedupData, hr, if_pos hv, List.map_cons]
        exact (ih seen).cons _
      · simp only [dedupData, hr, if_neg hv, List.map_cons]
        have hck : coerceKey r = Cell.num v :: r.drop 1 := by simp [coerceKey, hr]
        rw [hck]
        exact (ih (v :: seen)).cons₂ _

lemma dedupData_key_num :
    ∀ (rows : List Row) (seen : List Int) (x : Row),
      x ∈ dedupData rows seen → ∃ v : Int, getCell x 0 = Cell.num v ∧ v ∉ seen := by
  intro rows
  induction rows with
  | nil => intro seen x hx; simp [dedupData] at hx
  | cons r rs ih =>
    intro seen x hx
    cases hr : jsNumber (getCell r 0) with
    | none =>
      simp only [dedupData, hr] at hx
      exact ih seen x hx
    | some v =>
      by_cases hv : v ∈ seen
      · simp only [dedupData, hr, if_pos hv] at hx
        exact ih seen x hx
      · simp only [dedupData, hr, if_neg hv, List.mem_cons] at hx
        cases hx with
        | inl hx =>
          subst hx
          exact ⟨v, rfl, hv⟩
        | inr hx =>
          obtain ⟨w, hw, hws⟩ := ih (v :: seen) x hx
          exact ⟨w, hw, fun hmem => hws (List.mem_cons_of_mem _ hmem)⟩

lemma noncoercible_not_mem (rows : List Row) (seen : List Int) (r : Row)
    (h : jsNumber (getCell r 0) = none) : r ∉ dedupData rows seen := by
  intro hmem
  obtain ⟨v, hv, _⟩ := dedupData_key_num rows seen r hmem
  rw [hv] at h
  simp [jsNumber] at h

lemma dedupData_keys_nodup :
    ∀ (rows : List Row) (seen : List Int),
      ((dedupData rows seen).map (fun r => getCell r 0)).Nodup := by
  intro rows
  induction rows with
  | nil => intro seen; simp [dedupData]
  | cons r rs ih =>
    intro seen
    cases hr : jsNumber (getCell r 0) with
    | none => simp only [dedupData, hr]; exact ih seen
    | some v =>
      by_cases hv : v ∈ seen
      · simp only [dedupData, hr, if_pos hv]; exact ih seen
      · simp only [dedupData, hr, if_neg hv, List.map_cons, List.nodup_cons]
        refine ⟨?_, ih (v :: seen)⟩
        intro hmem
        obtain ⟨x, hx, hkey⟩ := List.mem_map.mp hmem
        obtain ⟨w, hw, hws⟩ := dedupData_key_num rs (v :: seen) x hx
        rw [hw] at hkey
        have hkey2 : Cell.num w = Cell.num v := by simpa [getCell] using hkey
        apply hws
        rw [Cell.num.inj hkey2]
        exact List.mem_cons_self v seen

lemma dedupData_find? :
    ∀ (rows : List Row) (seen : List Int) (v : Int), v ∉ seen →
      (dedupData rows seen).find? (fun x => getCell x 0 == Cell.num v)
        = (rows.find? (fun r => jsNumber (getCell r 0) == some v)).map coerceKey := by
  intro rows
  induction rows with
  | nil => intro seen v _; rfl
  | cons r rs ih =>
    intro seen v hv
    cases hr : jsNumber (getCell r 0) with
    | none =>
      simp only [dedupData, hr]
      rw [List.find?_cons_of_neg _ (by simp [hr])]
      exact ih seen v hv
    | some w =>
      by_cases hws : w ∈ seen
      · have hwv : ¬(w = v) := fun h => hv (h ▸ hws)
        simp only [dedupData, hr, if_pos hws]
        rw [List.find?_cons_of_neg _ (by simp [hr]; omega)]
        exact ih seen v hv
      · simp only [dedupData, hr, if_neg hws]
        by_cases hwv : w = v
        · subst hwv
          rw [List.find?_cons_of_pos _ (by simp [getCell]),
            List.find?_cons_of_pos _ (by simp [hr]),
            Option.map_some']
          simp [coerceKey, hr, List.drop_one]
        · rw [List.find?_cons_of_neg _ (by simp [getCell]; omega),
            List.find?_cons_of_neg _ (by simp [hr]; omega)]
          exact ih (w :: seen) v (by
            intro hmem
            cases List.mem_cons.mp hmem with
            | inl h => exact hwv h.symm
            | inr h => exact hv h)

/-- C5: the Normalizer keeps the header; the surviving data rows are, in
original order, a sublist of the key-coerced rows (each kept row has its
first cell replaced by the coerced number); every kept row carries a
numeric key; kept keys are pairwise distinct; and for each key the kept
row is exactly the coerced first input row coercing to that key.  The
concrete scenario: header + rows keyed 5, 5, "abc", 7 yields header +
the first key-5 row + the key-7 row. -/
theorem dedup_first_occurrence :
    (∀ rawData : List Row, (dedupTable rawData).head? = some (rawData.headD [])) ∧
    (∀ rows : List Row, (dedupData rows []).Sublist (rows.map coerceKey)) ∧
    (∀ (rows : List Row) (x : Row), x ∈ dedupData rows [] →
      ∃ v : Int, getCell x 0 = Cell.num v) ∧
    (∀ rows : List Row, ((dedupData rows []).map (fun r => getCell r 0)).Nodup) ∧
    (∀ (rows : List Row) (v : Int),
      (dedupData rows []).find? (fun x => getCell x 0 == Cell.num v)
        = (rows.find? (fun r => jsNumber (getCell r 0) == some v)).map coerceKey) ∧
    (dedupTable [[Cell.str "ID", Cell.str "V"],
        [Cell.num 5, Cell.str "a"], [Cell.num 5, Cell.str "b"],
        [Cell.str "abc", Cell.str "c"], [Cell.num 7, Cell.str "d"]]
      = [[Cell.str "ID", Cell.str "V"], [Cell.num 5, Cell.str "a"], [Cell.num 7, Cell.str "d"]]) := by
  refine ⟨fun rawData => rfl, fun rows => dedupData_sublist rows [], ?_,
    fun rows => dedupData_keys_nodup rows [], fun rows v => dedupData_find? rows [] v (by simp),
    by decide⟩
  intro rows x hx
  obtain ⟨v, hv, _⟩ := dedupData_key_num rows [] x hx
  exact ⟨v, hv⟩

/-- C5 witness: the dedup theorem's numeric-key clause applied to the
concrete one-row table. -/
theorem dedup_first_occurrence_witness :
    (([Cell.num 5] : Row) ∈ dedupData [[Cell.num 5]] []) ∧
    (∃ v : Int, getCell ([Cell.num 5] : Row) 0 = Cell.num v) :=
  ⟨by decide, dedup_first_occurrence.2.2.1 [[Cell.num 5]] [Cell.num 5] (by decide)⟩

/-- C7 counterexample: with no pre-filter at all, a data row whose first
cell does not coerce to a number ("abc") is removed from the Normalizer
output entirely, contradicting the claim that such a row remains in the
table. -/
theorem noncoercible_row_dropped_counterexample :
    (dedupTable [[Cell.str "ID", Cell.str "V"], [Cell.str "abc", Cell.str "X"]]
      = [[Cell.str "ID", Cell.str "V"]]) ∧
    (([Cell.str "abc", Cell.str "X"] : Row) ∉
      dedupTable [[Cell.str "ID", Cell.str "V"], [Cell.str "abc", Cell.str "X"]]) := by
  exact ⟨by decide, by decide⟩

/-- C7 (amended): a data row whose first cell cannot be coerced to a
number is dropped by the Normalizer — it is excluded from the output's
data rows altogether, not merely from uniqueness and join tracking. -/
theorem noncoercible_row_dropped :
    ∀ (rawData : List Row) (r : Row), jsNumber (getCell r 0) = none →
      r ∉ (dedupTable rawData).drop 1 := by
  intro rawData r h
  unfold dedupTable
  rw [List.drop_succ_cons, List.drop_zero]
  exact noncoercible_not_mem _ _ _ h

/-- C7 witness: the amended theorem applied to the concrete non-numeric
row. -/
theorem noncoercible_row_dropped_witness :
    (jsNumber (getCell ([Cell.str "abc"] : Row) 0) = none) ∧
    (([Cell.str "abc"] : Row) ∉ (dedupTable [[Cell.str "h"], [Cell.str "abc"]]).drop 1) :=
  ⟨by decide, noncoercible_row_dropped [[Cell.str "h"], [Cell.str "abc"]] [Cell.str "abc"] (by decide)⟩

/-- C10: the empty string coerces to the number 0, so a data row whose
first cell is blank is kept by the Normalizer with numeric key 0 (its
subsequent rows deduplicate against the seen key 0 — no row keyed 0 can
appear later), and key 0 then takes part in both lookup joins exactly
like any other key. -/
theorem blank_key_coerces_zero :
    (jsNumber (Cell.str "") = some 0) ∧
    (∀ (hd r : Row) (rs : List Row), getCell r 0 = Cell.str "" →
      dedupTable (hd :: r :: rs) = hd :: (Cell.num 0 :: r.drop 1) :: dedupData rs [0]) ∧
    (∀ (rows : List Row) (x : Row), x ∈ dedupData rows [0] → getCell x 0 ≠ Cell.num 0) ∧
    (∀ (idx : List (Int × Cell)) (dup : List Int) (r : Row), getCell r 0 = Cell.num 0 →
      enrichRow idx dup r
        = r ++ [infoVal idx 0, if 0 ∈ dup then Cell.num 0 else Cell.str "#N/A"]) := by
  refine ⟨by decide, ?_, ?_, ?_⟩
  · intro hd r rs h
    unfold dedupTable
    congr 1
    simp [dedupData, h, show jsNumber (Cell.str "") = some 0 from by decide]
  · intro rows x hx
    obtain ⟨v, hv, hvs⟩ := dedupData_key_num rows [0] x hx
    rw [hv]
    intro hc
    have hv0 : v = 0 := by injection hc
    subst hv0
    exact hvs (List.mem_cons_self 0 [])
  · intro idx dup r h
    simp [enrichRow, h]

/-- C10 witness: the blank-key theorem applied to a concrete table whose
two data rows both have a blank first cell. -/
theorem blank_key_coerces_zero_witness :
    (getCell ([Cell.str "", Cell.str "x"] : Row) 0 = Cell.str "") ∧
    (dedupTable ([Cell.str "H"] :: [Cell.str "", Cell.str "x"] :: [[Cell.str "", Cell.str "y"]])
      = [Cell.str "H"] :: (Cell.num 0 :: ([Cell.str "", Cell.str "x"] : Row).drop 1)
          :: dedupData [[Cell.str "", Cell.str "y"]] [0]) :=
  ⟨by decide, blank_key_coerces_zero.2.1 [Cell.str "H"] [Cell.str "", Cell.str "x"]
    [[Cell.str "", Cell.str "y"]] (by decide)⟩

/-- C8: the excelProcessor.ts variant of the assignment step mutates its
input — after the call, the caller's processed table has "Screener"
prepended to its header row and the owner name prepended to every
filtered data row — so the claim that the assignment step leaves its
input unchanged fails on that variant (the part_001/part_002 variants
copy the header and each bucketed row precisely to avoid this). -/
theorem excelProcessor_assign_mutates_input :
    (assignAndGenerateExcelEPEffect
        [[Cell.str "ID", Cell.str "Info_VLOOKUP", Cell.str "Dup_VLOOKUP"],
          [Cell.num 1, Cell.str "CN", Cell.str "#N/A"]] ["Alice"] [] [] []
      = [[Cell.str "Screener", Cell.str "ID", Cell.str "Info_VLOOKUP", Cell.str "Dup_VLOOKUP"],
          [Cell.str "Alice", Cell.num 1, Cell.str "CN", Cell.str "#N/A"]]) ∧
    (assignAndGenerateExcelEPEffect
        [[Cell.str "ID", Cell.str "Info_VLOOKUP", Cell.str "Dup_VLOOKUP"],
          [Cell.num 1, Cell.str "CN", Cell.str "#N/A"]] ["Alice"] [] [] []
      ≠ [[Cell.str "ID", Cell.str "Info_VLOOKUP", Cell.str "Dup_VLOOKUP"],
          [Cell.num 1, Cell.str "CN", Cell.str "#N/A"]]) := by
  exact ⟨by decide, by decide⟩

lemma upsert_keys (n : String) :
    ∀ acc : List (String × Nat),
      (upsert n acc).map Prod.fst
        = if n ∈ acc.map Prod.fst then acc.map Prod.fst
          else acc.map Prod.fst ++ [n] := by
  intro acc
  induction acc with
  | nil => simp [upsert]
  | cons p rest ih =>
    obtain ⟨k, c⟩ := p
    by_cases hk : k = n
    · subst hk
      simp [upsert]
    · have hkn : ¬ n = k := fun h => hk h.symm
      simp only [upsert, if_neg hk, List.map_cons, List.mem_cons]
      by_cases hn : n ∈ rest.map Prod.fst
      · simp [ih, hn, hkn]
      · simp [ih, hn, hkn]

lemma upsert_sum (n : String) :
    ∀ acc : List (String × Nat),
      ((upsert n acc).map Prod.snd).sum = ((acc.map Prod.snd).sum) + 1 := by
  intro acc
  induction acc with
  | nil => simp [upsert]
  | cons p rest ih =>
    obtain ⟨k, c⟩ := p
    by_cases hk : k = n
    · subst hk
      simp [upsert]
      omega
    · simp only [upsert, if_neg hk, List.map_cons, List.sum_cons, ih]
      omega

lemma upsert_mem_spec (n : String) :
    ∀ acc : List (String × Nat), (acc.map Prod.fst).Nodup →
      ∀ q ∈ upsert n acc,
        (q.1 ≠ n ∧ q ∈ acc) ∨
        (q.1 = n ∧ (((n, q.2 - 1) ∈ acc ∧ 1 ≤ q.2) ∨ (q.2 = 1 ∧ n ∉ acc.map Prod.fst))) := by
  intro acc
  induction acc with
  | nil =>
    intro _ q hq
    simp only [upsert, List.mem_singleton] at hq
    subst hq
    exact Or.inr ⟨rfl, Or.inr ⟨rfl, by simp⟩⟩
  | cons p rest ih =>
    intro hnodup q hq
    obtain ⟨k, c⟩ := p
    simp only [List.map_cons, List.nodup_cons] at hnodup
    obtain ⟨hknotin, hrestnodup⟩ := hnodup
    by_cases hk : k = n
    · subst hk
      simp only [upsert, if_pos rfl] at hq
      rcases List.mem_cons.mp hq with rfl | hq2
      · exact Or.inr ⟨rfl, Or.inl ⟨by simp, by omega⟩⟩
      · have hkey : q.1 ∈ rest.map Prod.fst := List.mem_map_of_mem Prod.fst hq2
        exact Or.inl ⟨fun h => hknotin (h ▸ hkey), List.mem_cons_of_mem _ hq2⟩
    · simp only [upsert, if_neg hk] at hq
      rcases List.mem_cons.mp hq with rfl | hq2
      · exact Or.inl ⟨hk, List.mem_cons_self _ _⟩
      · rcases ih hrestnodup q hq2 with ⟨hne, hmem⟩ | ⟨heq, hrest⟩
        · exact Or.inl ⟨hne, List.mem_cons_of_mem _ hmem⟩
        · refine Or.inr ⟨heq, ?_⟩
          rcases hrest with ⟨hmem, hle⟩ | ⟨h1, hnotin⟩
          · exact Or.inl ⟨List.mem_cons_of_mem _ hmem, hle⟩
          · refine Or.inr ⟨h1, ?_⟩
            simp only [List.map_cons, List.mem_cons]
            rintro (h | h)
            · exact hk h.symm
            · exact hnotin h

lemma tally_concat (ns : List String) (n : String) :
    tally (ns ++ [n]) = upsert n (tally ns) := by
  simp [tally, List.foldl_append]

lemma tally_inv (ns : List String) :
    ((tally ns).map Prod.fst).Nodup ∧
    (∀ q ∈ tally ns, q.2 = ns.count q.1) ∧
    (∀ k : String, k ∈ (tally ns).map Prod.fst ↔ k ∈ ns) ∧
    ((tally ns).map Prod.snd).sum = ns.length := by
  induction ns using List.reverseRecOn with
  | nil => simp [tally]
  | append_singleton ns n ih =>
    obtain ⟨ihnodup, ihcount, ihmem, ihsum⟩ := ih
    rw [tally_concat]
    refine ⟨?_, ?_, ?_, ?_⟩
    · rw [upsert_keys]
      by_cases hn : n ∈ (tally ns).map Prod.fst
      · simpa [hn] using ihnodup
      · rw [if_neg hn]
        refine List.Nodup.append ihnodup (List.nodup_singleton n) ?_
        intro a ha hb
        simp only [List.mem_singleton] at hb
        subst hb
        exact hn ha
    · intro q hq
      rcases upsert_mem_spec n (tally ns) ihnodup q hq with ⟨hne, hmem⟩ | ⟨heq, hrest⟩
      · rw [ihcount q hmem, List.count_append]
        have h0 : List.count q.1 [n] = 0 :=
          List.count_eq_zero.mpr (by simp [hne])
        omega
      · rcases hrest with ⟨hmem, hle⟩ | ⟨h1, hnotin⟩
        · have hc := ihcount (n, q.2 - 1) hmem
          simp only at hc
          rw [heq, List.count_append]
          have hc1 : List.count n [n] = 1 := by simp
          omega
        · have hcount0 : ns.count n = 0 := by
            apply List.count_eq_zero.mpr
            intro hns
            exact hnotin ((ihmem n).mpr hns)
          rw [heq, List.count_append, hcount0]
          simp [h1]
    · intro k
      rw [upsert_keys]
      by_cases hn : n ∈ (tally ns).map Prod.fst
      · rw [if_pos hn, ihmem]
        constructor
        · intro h
          exact List.mem_append_left _ h
        · intro h
          rcases List.mem_append.mp h with h | h
          · exact h
          · simp only [List.mem_singleton] at h
            subst h
            exact (ihmem k).mp hn
      · rw [if_neg hn]
        simp [List.mem_append, ihmem]
    · rw [upsert_sum, ihsum]
      simp

lemma charListLt_irrefl : ∀ x : List Char, charListLt x x = false := by
  intro x
  induction x with
  | nil => rfl
  | cons a as ih => simp [charListLt, ih]

lemma charListLt_trans :
    ∀ x y z : List Char, charListLt x y = true → charListLt y z = true →
      charListLt x z = true := by
  intro x
  induction x with
  | nil =>
    intro y z hxy hyz
    cases y with
    | nil => exact absurd hxy (by simp [charListLt])
    | cons b bs =>
      cases z with
      | nil => exact absurd hyz (by simp [charListLt])
      | cons c cs => simp [charListLt]
  | cons a as ih =>
    intro y z hxy hyz
    cases y with
    | nil => exact absurd hxy (by simp [charListLt])
    | cons b bs =>
      cases z with
      | nil => exact absurd hyz (by simp [charListLt])
      | cons c cs =>
        simp only [charListLt, Bool.or_eq_true, Bool.and_eq_true, decide_eq_true_eq,
          beq_iff_eq] at hxy hyz ⊢
        rcases hxy with hab | ⟨hab, hrec⟩
        · rcases hyz with hbc | ⟨hbc, _⟩
          · exact Or.inl (lt_trans hab hbc)
          · exact Or.inl (hbc ▸ hab)
        · subst hab
          rcases hyz with hbc | ⟨hbc, hrec2⟩
          · exact Or.inl hbc
          · subst hbc
            exact Or.inr ⟨rfl, ih bs cs hrec hrec2⟩

lemma charListLt_trichotomy :
    ∀ x y : List Char, charListLt x y = true ∨ x = y ∨ charListLt y x = true := by
  intro x
  induction x with
  | nil =>
    intro y
    cases y with
    | nil => exact Or.inr (Or.inl rfl)
    | cons b bs => exact Or.inl (by simp [charListLt])
  | cons a as ih =>
    intro y
    cases y with
    | nil => exact Or.inr (Or.inr (by simp [charListLt]))
    | cons b bs =>
      rcases lt_trichotomy a b with hab | hab | hab
      · exact Or.inl (by simp [charListLt, hab])
      · subst hab
        rcases ih bs with h | h | h
        · exact Or.inl (by simp [charListLt, h])
        · exact Or.inr (Or.inl (by rw [h]))
        · exact Or.inr (Or.inr (by simp [charListLt, h]))
      · exact Or.inr (Or.inr (by simp [charListLt, hab]))

lemma charListLt_asymm {x y : List Char}
    (h1 : charListLt x y = true) (h2 : charListLt y x = true) : False := by
  have := charListLt_trans x y x h1 h2
  rw [charListLt_irrefl] at this
  exact Bool.false_ne_true this

lemma charListLe_total (x y : List Char) : charListLe x y = true ∨ charListLe y x = true := by
  unfold charListLe
  by_cases h : charListLt y x = true
  · right
    simp only [Bool.not_eq_true']
    by_cases h2 : charListLt x y = true
    · exact absurd h (fun hc => charListLt_asymm h2 hc)
    · exact Bool.not_eq_true _ ▸ (by simpa using h2)
  · left
    simp [Bool.not_eq_true] at h
    simp [h]

lemma charListLe_trans {x y z : List Char}
    (h1 : charListLe x y = true) (h2 : charListLe y z = true) : charListLe x z = true := by
  unfold charListLe at h1 h2 ⊢
  simp only [Bool.not_eq_true'] at h1 h2 ⊢
  by_contra hc
  simp only [Bool.not_eq_false] at hc
  rcases charListLt_trichotomy x y with hxy | hxy | hxy
  · have := charListLt_trans z x y hc hxy
    rw [h2] at this
    exact Bool.false_ne_true this
  · subst hxy
    rw [h2] at hc
    exact Bool.false_ne_true hc
  · rw [h1] at hxy
    exact Bool.false_ne_true hxy

lemma string_data_eq {s t : String} (h : s.data = t.data) : s = t := by
  cases s
  cases t
  exact congrArg String.mk h

lemma localeLe_total (s t : String) : localeLe s t = true ∨ localeLe t s = true := by
  unfold localeLe
  rcases charListLt_trichotomy (toLowerStr s).data (toLowerStr t).data with h | h | h
  · left
    simp [h]
  · have heqs : toLowerStr s = toLowerStr t := string_data_eq h
    rcases charListLe_total (flipCase s).data (flipCase t).data with hle | hle
    · left
      simp [heqs, hle]
    · right
      simp [heqs, hle]
  · right
    simp [h]

lemma localeLe_trans (s t u : String)
    (h1 : localeLe s t = true) (h2 : localeLe t u = true) : localeLe s u = true := by
  unfold localeLe at h1 h2 ⊢
  simp only [Bool.or_eq_true, Bool.and_eq_true, beq_iff_eq] at h1 h2 ⊢
  rcases h1 with h1 | ⟨h1e, h1t⟩
  · rcases h2 with h2 | ⟨h2e, h2t⟩
    · exact Or.inl (charListLt_trans _ _ _ h1 h2)
    · exact Or.inl (by rw [← h2e]; exact h1)
  · rcases h2 with h2 | ⟨h2e, h2t⟩
    · exact Or.inl (by rw [h1e]; exact h2)
    · exact Or.inr ⟨h1e.trans h2e, charListLe_trans h1t h2t⟩

lemma pivotRel_total : ∀ a b : String × Nat, pivotRel a b ∨ pivotRel b a :=
  fun a b => localeLe_total a.1 b.1

lemma pivotRel_trans : ∀ a b c : String × Nat, pivotRel a b → pivotRel b c → pivotRel a c :=
  fun a b c h1 h2 => localeLe_trans a.1 b.1 c.1 h1 h2

lemma pivotOf_spec (rows : List Row) :
    ((pivotOf rows).map Prod.fst).Nodup ∧
    (∀ p ∈ pivotOf rows, p.2 = (rows.map headScreener).count p.1 ∧ 0 < p.2) ∧
    (∀ k : String, k ∈ (pivotOf rows).map Prod.fst ↔ k ∈ rows.map headScreener) ∧
    ((pivotOf rows).map Prod.snd).sum = rows.length ∧
    List.Sorted pivotRel (pivotOf rows) := by
  have hperm : (pivotOf rows).Perm (tally (rows.map headScreener)) :=
    List.perm_insertionSort pivotRel _
  obtain ⟨hnodup, hcount, hmem, hsum⟩ := tally_inv (rows.map headScreener)
  refine ⟨?_, ?_, ?_, ?_, ?_⟩
  · exact ((hperm.map Prod.fst).nodup_iff).mpr hnodup
  · intro p hp
    have hpt : p ∈ tally (rows.map headScreener) := hperm.mem_iff.mp hp
    have hp2 := hcount p hpt
    refine ⟨hp2, ?_⟩
    have hkey : p.1 ∈ (tally (rows.map headScreener)).map Prod.fst :=
      List.mem_map_of_mem Prod.fst hpt
    have hin : p.1 ∈ rows.map headScreener := (hmem p.1).mp hkey
    rw [hp2]
    exact List.count_pos_iff.mpr hin
  · intro k
    exact ((hperm.map Prod.fst).mem_iff).trans (hmem k)
  · have hs := (hperm.map Prod.snd).sum_eq
    rw [hs, hsum, List.length_map]
  · haveI : IsTotal (String × Nat) pivotRel := ⟨pivotRel_total⟩
    haveI : IsTrans (String × Nat) pivotRel := ⟨pivotRel_trans⟩
    exact List.sorted_insertionSort pivotRel _

lemma assign_ok_pivot :
    ∀ (pd : List Row) (cn jp sp gen : List String) (zf : ZraxFilter)
      (final : List Row) (pivot : List (String × Nat)),
      assignAndGenerateExcel pd cn jp sp gen zf = Except.ok (final, pivot) →
      pivot = pivotOf final := by
  intro pd cn jp sp gen zf final pivot hok
  unfold assignAndGenerateExcel at hok
  by_cases hlen : pd.length < 2
  · rw [if_pos hlen] at hok
    have h := Except.ok.inj hok
    obtain ⟨h1, h2⟩ := Prod.mk.inj h
    rw [← h2, ← h1]
    rfl
  · rw [if_neg hlen] at hok
    cases hdup : findIndexStr (pd.headD []) "Dup_VLOOKUP" with
    | none =>
      rw [hdup] at hok
      exact absurd hok (by simp)
    | some dupIdx =>
      rw [hdup] at hok
      cases hinfo : findIndexStr (pd.headD []) "Info_VLOOKUP" with
      | none =>
        rw [hinfo] at hok
        exact absurd hok (by simp)
      | some infoIdx =>
        rw [hinfo] at hok
        dsimp only at hok
        have h := Except.ok.inj hok
        obtain ⟨h1, h2⟩ := Prod.mk.inj h
        rw [← h2, ← h1]

/-- C6 counterexample: with assignees "B" (CN bucket) and "a" (GENERAL
bucket), the assignment step returns the pivot [("a", 1), ("B", 1)] —
ordered by the locale collation, which puts "a" before "B" — while under
ordinary (code-unit) lexicographic comparison "B" precedes "a"
(`lexLe "a" "B" = false`), so the pivot is not sorted by ordinary
lexicographic string comparison as the claim states. -/
theorem pivot_sort_counterexample :
    (assignAndGenerateExcel
        [[Cell.str "K", Cell.str "Info_VLOOKUP", Cell.str "Dup_VLOOKUP"],
          [Cell.num 1, Cell.str "CN", Cell.str "#N/A"],
          [Cell.num 2, Cell.str "XX", Cell.str "#N/A"]]
        ["B"] [] [] ["a"] ZraxFilter.NONE
      = Except.ok ([[Cell.str "B", Cell.num 1, Cell.str "CN", Cell.str "#N/A"],
          [Cell.str "a", Cell.num 2, Cell.str "XX", Cell.str "#N/A"]],
          [("a", 1), ("B", 1)])) ∧
    (lexLe "a" "B" = false) ∧
    ¬ List.Sorted (fun p q : String × Nat => lexLe p.1 q.1 = true) [("a", 1), ("B", 1)] := by
  refine ⟨by decide, by decide, ?_⟩
  intro hs
  have h := List.rel_of_sorted_cons hs ("B", 1) (List.mem_singleton_self _)
  exact absurd h (by decide)

/-- C6 (amended): the pivot returned by the assignment step has exactly
one entry per distinct owner name that received at least one row, each
entry counting that name's assigned rows, with the counts summing to the
total number of assigned rows; it is sorted ascending by name under the
locale-aware collation of `localeCompare` (case-insensitive primary
comparison, so e.g. "a" sorts before "B"), which agrees with ordinary
lexicographic comparison only on uniform-case names. -/
theorem pivot_entries_sorted_localeCompare :
    ∀ (pd : List Row) (cn jp sp gen : List String) (zf : ZraxFilter)
      (final : List Row) (pivot : List (String × Nat)),
      assignAndGenerateExcel pd cn jp sp gen zf = Except.ok (final, pivot) →
      ((pivot.map Prod.fst).Nodup ∧
        (∀ p ∈ pivot, p.2 = (final.map headScreener).count p.1 ∧ 0 < p.2) ∧
        (∀ k : String, k ∈ pivot.map Prod.fst ↔ k ∈ final.map headScreener) ∧
        ((pivot.map Prod.snd).sum = final.length) ∧
        List.Sorted pivotRel pivot) := by
  intro pd cn jp sp gen zf final pivot hok
  rw [assign_ok_pivot pd cn jp sp gen zf final pivot hok]
  exact pivotOf_spec final

/-- C6 witness: the amended pivot theorem applied to the concrete
two-row table of the counterexample. -/
theorem pivot_entries_sorted_localeCompare_witness :
    (assignAndGenerateExcel
        [[Cell.str "K", Cell.str "Info_VLOOKUP", Cell.str "Dup_VLOOKUP"],
          [Cell.num 1, Cell.str "CN", Cell.str "#N/A"],
          [Cell.num 2, Cell.str "XX", Cell.str "#N/A"]]
        ["B"] [] [] ["a"] ZraxFilter.NONE
      = Except.ok ([[Cell.str "B", Cell.num 1, Cell.str "CN", Cell.str "#N/A"],
          [Cell.str "a", Cell.num 2, Cell.str "XX", Cell.str "#N/A"]],
          [("a", 1), ("B", 1)])) ∧
    ((([("a", 1), ("B", 1)] : List (String × Nat)).map Prod.fst).Nodup ∧
      (∀ p ∈ ([("a", 1), ("B", 1)] : List (String × Nat)),
        p.2 = (([[Cell.str "B", Cell.num 1, Cell.str "CN", Cell.str "#N/A"],
          [Cell.str "a", Cell.num 2, Cell.str "XX", Cell.str "#N/A"]] : List Row).map
            headScreener).count p.1 ∧ 0 < p.2) ∧
      (∀ k : String, k ∈ (([("a", 1), ("B", 1)] : List (String × Nat)).map Prod.fst)
        ↔ k ∈ ([[Cell.str "B", Cell.num 1, Cell.str "CN", Cell.str "#N/A"],
          [Cell.str "a", Cell.num 2, Cell.str "XX", Cell.str "#N/A"]] : List Row).map
            headScreener) ∧
      ((([("a", 1), ("B", 1)] : List (String × Nat)).map Prod.snd).sum
        = ([[Cell.str "B", Cell.num 1, Cell.str "CN", Cell.str "#N/A"],
          [Cell.str "a", Cell.num 2, Cell.str "XX", Cell.str "#N/A"]] : List Row).length) ∧
      List.Sorted pivotRel [("a", 1), ("B", 1)]) :=
  ⟨by decide,
    pivot_entries_sorted_localeCompare
      [[Cell.str "K", Cell.str "Info_VLOOKUP", Cell.str "Dup_VLOOKUP"],
        [Cell.num 1, Cell.str "CN", Cell.str "#N/A"],
        [Cell.num 2, Cell.str "XX", Cell.str "#N/A"]]
      ["B"] [] [] ["a"] ZraxFilter.NONE
      [[Cell.str "B", Cell.num 1, Cell.str "CN", Cell.str "#N/A"],
        [Cell.str "a", Cell.num 2, Cell.str "XX", Cell.str "#N/A"]]
      [("a", 1), ("B", 1)] (by decide)⟩
